import Mathlib

/-!
Shallow embedding of the lazy_milktea logcat pipeline frontend
(`src/components/logcat/...`) together with spec-modelled pieces of the
Rust query executor and line parser that live behind the IPC boundary.

Strings are modelled as `List Char`; JavaScript `toLowerCase` is modelled
character-wise.  The JavaScript regular-expression engine is abstracted as
an explicit `compile` parameter wherever the code constructs a `RegExp`.
-/

abbrev Str := List Char

/-- Lowercase mapping of one character under the ECMAScript Default Case
Conversion used by `String.prototype.toLowerCase`.  The mapping is
one-to-many: the sole unconditional one-to-two lowercase mapping,
U+0130 `İ` → `i` + U+0307 (combining dot above), is modelled explicitly;
every other character maps to a single character (ASCII case folding via
`Char.toLower`). -/
def lowerChar (c : Char) : Str :=
  if c = 'İ' then ['i', '\u0307'] else [c.toLower]

/-- Model of JavaScript `String.prototype.toLowerCase`: concatenation of
the per-character lowercase expansions.  The result may be *longer* than
the input (exactly when the input contains `İ`). -/
def lowerStr (s : Str) : Str := (s.map lowerChar).flatten

/-- Whitespace test used by `trim` models. -/
def isSpaceChar (c : Char) : Bool := c = ' ' || c = '\t' || c = '\n' || c = '\r'

/-- Model of JavaScript `String.prototype.trim`. -/
def trimStr (s : Str) : Str :=
  ((s.dropWhile isSpaceChar).reverse.dropWhile isSpaceChar).reverse

/-- Does `q` occur in `s` starting at position `i`?  (Mirrors a successful
anchored comparison inside `String.prototype.indexOf`.) -/
def matchesAt (s q : Str) (i : Nat) : Bool :=
  (s.drop i).take q.length == q

/-- Model of JavaScript `s.indexOf(q, start)`: first position `≥ start`
where `q` occurs in `s`, `none` for `-1`. -/
def indexOfFrom (s q : Str) (start : Nat) : Option Nat :=
  (List.range (s.length + 1)).find? (fun i => start ≤ i && matchesAt s q i)

/-- Substring `s[a..b)` — model of JavaScript `s.slice(a, b)` for
`0 ≤ a ≤ b`. -/
def sliceStr (s : Str) (a b : Nat) : Str := (s.drop a).take (b - a)

/-- Does `pat` occur anywhere in `s`?  (JavaScript `RegExp.test` for the
literal patterns in `DANGEROUS_PATTERNS`, and `String.includes`.) -/
def containsSub (s pat : Str) : Bool :=
  (List.range (s.length + 1)).any (fun i => matchesAt s pat i)

/-- `textMode ∈ {plain, regex}` from `types.ts`. -/
inductive TextMode where
  | plain
  | regex
deriving DecidableEq, Repr

/-- `LogFilters` from `src/types.ts` (V2 shape). -/
structure LogFilters where
  tsFrom : Option Str := none
  tsTo : Option Str := none
  levels : Option (List Char) := none
  tag : Option Str := none
  pid : Option Nat := none
  tid : Option Nat := none
  text : Option Str := none
  notText : Option Str := none
  textMode : Option TextMode := none
  caseSensitive : Option Bool := none
deriving DecidableEq, Repr

/-- Result type of the highlighters in `useLogHighlight.ts`:
`{ parts: string[]; matches: string[] }`.  The `matches` field is rendered
`hits` because `matches` is reserved syntax in Lean. -/
structure Highlight where
  parts : List Str
  hits : List Str
deriving DecidableEq, Repr

/-- `SAFE_HIGHLIGHT_LIMIT` in `useLogHighlight.ts`. -/
def SAFE_HIGHLIGHT_LIMIT : Nat := 500

/-- `DANGEROUS_PATTERNS` of `useLogHighlight.ts`: the four regexes
`/\(\.\+\)\+/`, `/\(\.\*\)\*/`, `/\(a\+\)\+/`, `/\(a\*\)\*/` test for the
literal substrings `(.+)+`, `(.*)*`, `(a+)+`, `(a*)*`. -/
def isDangerousRegex (pattern : Str) : Bool :=
  containsSub pattern "(.+)+".toList ||
  containsSub pattern "(.*)*".toList ||
  containsSub pattern "(a+)+".toList ||
  containsSub pattern "(a*)*".toList

/-- Fuel-indexed model of the `while` loop inside `createPlainHighlight`
(`useLogHighlight.ts`, lines 62–79).  `text` is the original text,
`search` the possibly lowercased text, `sq` the possibly lowercased query,
`qlen` the length of the original query, `lastIndex` the loop variable.
The fuel `text.length + 1` used by `createPlainHighlight` covers every
iteration of the JavaScript loop for a non-empty query: each character's
lowercase expansion (`lowerChar`) contains any given unit at most once,
so a one-unit query matches at most `text.length` times, and a longer
query advances `lastIndex` by at least two through at most
`2 * text.length` units — in both cases at most `text.length` matches. -/
def plainLoopF (text search sq : Str) (qlen : Nat) :
    Nat → Nat → List Str × List Str
  | 0, lastIndex => ([sliceStr text lastIndex text.length], [])
  | fuel + 1, lastIndex =>
    match indexOfFrom search sq lastIndex with
    | none => ([sliceStr text lastIndex text.length], [])
    | some i =>
      let rest := plainLoopF text search sq qlen fuel (i + qlen)
      (sliceStr text lastIndex i :: rest.1, sliceStr text i (i + qlen) :: rest.2)

/-- `createPlainHighlight` from `useLogHighlight.ts`. -/
def createPlainHighlight (query : Str) (caseSensitive : Bool) : Str → Highlight :=
  fun text =>
    let searchText := if caseSensitive then text else lowerStr text
    let searchQuery := if caseSensitive then query else lowerStr query
    let r := plainLoopF text searchText searchQuery query.length (text.length + 1) 0
    ⟨r.1, r.2⟩

/-- The memoised highlighter body of `useLogHighlight` (lines 19–44): the
JavaScript `new RegExp` / `createRegexHighlight` pair is abstracted as
`compile`, which returns `none` when the pattern fails to compile. -/
def highlightFn (filters : LogFilters)
    (compile : Str → Bool → Option (Str → Highlight)) : Str → Highlight :=
  let query := trimStr (filters.text.getD [])
  if query = [] then fun text => ⟨[text], []⟩
  else
    let mode := filters.textMode.getD TextMode.plain
    let caseSensitive := filters.caseSensitive.getD false
    if mode = TextMode.regex then
      if isDangerousRegex query then createPlainHighlight query caseSensitive
      else
        match compile query caseSensitive with
        | some re => re
        | none => createPlainHighlight query caseSensitive
    else createPlainHighlight query caseSensitive

/-- The function returned by `useLogHighlight` (lines 46–55): skips
highlighting for texts longer than `SAFE_HIGHLIGHT_LIMIT`. -/
def useLogHighlight (filters : LogFilters)
    (compile : Str → Bool → Option (Str → Highlight)) (text : Str) : Highlight :=
  if SAFE_HIGHLIGHT_LIMIT < text.length then ⟨[text], []⟩
  else highlightFn filters compile text

/-- Interleaved concatenation `parts[0] ++ matches[0] ++ parts[1] ++ …`. -/
def interleave : List Str → List Str → Str
  | [], _ => []
  | p :: ps, [] => p ++ interleave ps []
  | p :: ps, m :: ms => p ++ m ++ interleave ps ms

example : createPlainHighlight "o".toList false "foo".toList =
    ⟨["f".toList, [], "".toList], ["o".toList, "o".toList]⟩ := by decide

example : useLogHighlight { text := some "B".toList } (fun _ _ => none) "abc".toList =
    ⟨["a".toList, "c".toList], ["b".toList]⟩ := by decide

example : isDangerousRegex "(a+)+x".toList = true := by decide

/-! ## LogcatViewV2.tsx: filter synthesis -/

/-- The character class of `escapeRegex` in `LogcatViewV2.tsx`
(`/[.*+?^$\x7b\x7d()|[\]\\]/`). -/
def isRegexSpecial (c : Char) : Bool :=
  c = '.' || c = '*' || c = '+' || c = '?' || c = '^' || c = '$' ||
  c = '\x7b' || c = '\x7d' || c = '(' || c = ')' || c = '|' ||
  c = '[' || c = ']' || c = '\\'

/-- `escapeRegex` from `LogcatViewV2.tsx`: prefix every regex special
character with a backslash. -/
def escapeRegex (s : Str) : Str :=
  s.foldr (fun c acc => (if isRegexSpecial c then ['\\', c] else [c]) ++ acc) []

/-- The `textChips` sync effect of `LogcatViewV2.tsx` (lines 203–217) as a
pure update of the filter record. -/
def textChipsSync (textChips : List Str) (f : LogFilters) : LogFilters :=
  match textChips with
  | [] => { f with text := none }
  | [c] => { f with text := some c }
  | _ =>
    let isRegexMode := f.textMode = some TextMode.regex
    let pattern :=
      List.intercalate ['|']
        (textChips.map (fun chip => if isRegexMode then chip else escapeRegex chip))
    { f with text := some pattern, textMode := some TextMode.regex }

/-- The `tagChips` sync effect of `LogcatViewV2.tsx` (lines 240–247). -/
def tagChipsSync (tagChips : List Str) (f : LogFilters) : LogFilters :=
  match tagChips with
  | [] => { f with tag := none }
  | _ => { f with tag := some (List.intercalate ['|'] tagChips) }

/-! ## LogcatViewV2.tsx: time-range handling -/

def isDigitChar (c : Char) : Bool := '0' ≤ c && c ≤ '9'

/-- Numeric value of a digit string (the regexes below guarantee digits). -/
def digitsToNat (s : Str) : Nat :=
  s.foldl (fun n c => n * 10 + (c.toNat - '0'.toNat)) 0

/-- Consume exactly `n` digits. -/
def pDigits : Nat → Str → Option (Str × Str)
  | 0, cs => some ([], cs)
  | n + 1, c :: cs =>
    if isDigitChar c then (pDigits n cs).map (fun r => (c :: r.1, r.2)) else none
  | _ + 1, [] => none

/-- Consume a single literal character. -/
def pChar (c : Char) : Str → Option Str
  | d :: cs => if d = c then some cs else none
  | [] => none

/-- Consume one or more whitespace characters (`\s+`). -/
def pSpaces1 : Str → Option Str
  | c :: cs => if isSpaceChar c then some (cs.dropWhile isSpaceChar) else none
  | [] => none

/-- Consume two digits followed by the literal `sep`. -/
def pD2sep (sep : Char) (s : Str) : Option (Str × Str) := do
  let (a, s) ← pDigits 2 s
  let s ← pChar sep s
  some (a, s)

/-- Consume `\d\x7b2\x7d-\d\x7b2\x7d` (a month-day pair). -/
def pMonthDay (s : Str) : Option (Str × Str × Str) := do
  let (month, s) ← pD2sep '-' s
  let (day, s) ← pDigits 2 s
  some (month, day, s)

/-- Consume `\d\x7b2\x7d:\d\x7b2\x7d:\d\x7b2\x7d` (an H:M:S triple). -/
def pHms (s : Str) : Option (Str × Str × Str × Str) := do
  let (hour, s) ← pD2sep ':' s
  let (minute, s) ← pD2sep ':' s
  let (second, s) ← pDigits 2 s
  some (hour, minute, second, s)

/-- The optional `(?:\.\d\x7b1,3\x7d)?$` tail of `THREADTIME_PATTERN`. -/
def fracTailOk (s : Str) : Bool :=
  match s with
  | [] => true
  | '.' :: rest =>
    let frac := rest.takeWhile isDigitChar
    1 ≤ frac.length && frac.length ≤ 3 && rest.dropWhile isDigitChar == []
  | _ => false

/-- Match of `THREADTIME_PATTERN`
(`^(\d\x7b2\x7d)-(\d\x7b2\x7d)\s+(\d\x7b2\x7d):(\d\x7b2\x7d):(\d\x7b2\x7d)(?:\.\d\x7b1,3\x7d)?$`)
returning the five capture groups. -/
def matchThreadtimePattern (s : Str) : Option (Str × Str × Str × Str × Str) := do
  let (month, day, s) ← pMonthDay s
  let s ← pSpaces1 s
  let (hour, minute, second, s) ← pHms s
  if fracTailOk s then some (month, day, hour, minute, second) else none

/-- `parseThreadtimeInput` from `LogcatViewV2.tsx`: trims the input,
matches `THREADTIME_PATTERN`, and renders `"year-MM-DD HH:MM:SS"`. -/
def parseThreadtimeInput (input : Option Str) (year : Nat) : Option Str := do
  let raw ← input
  let trimmed := trimStr raw
  if trimmed = [] then none
  else
    let (month, day, hour, minute, second) ← matchThreadtimePattern trimmed
    some ((Nat.toDigits 10 year) ++ '-' :: month ++ '-' :: day ++ ' ' ::
      hour ++ ':' :: minute ++ ':' :: second)

/-- Match of `FILTER_PATTERN`
(`^(\d\x7b4\x7d)-(\d\x7b2\x7d)-(\d\x7b2\x7d)\s+(\d\x7b2\x7d):(\d\x7b2\x7d):(\d\x7b2\x7d)$`). -/
def matchFilterPattern (s : Str) : Option (Nat × Nat × Nat × Nat × Nat × Nat) := do
  let (year, s) ← pDigits 4 s
  let s ← pChar '-' s
  let (month, day, s) ← pMonthDay s
  let s ← pSpaces1 s
  let (hour, minute, second, s) ← pHms s
  if s = [] then
    some (digitsToNat year, digitsToNat month, digitsToNat day,
      digitsToNat hour, digitsToNat minute, digitsToNat second)
  else none

/-- Days since 1970-01-01 of a civil date with `1 ≤ m ≤ 12`
(the standard days-from-civil computation used to model the ECMAScript
`MakeDay` calendar arithmetic). -/
def daysFromCivil (y : Int) (m : Nat) (d : Int) : Int :=
  let y := if m ≤ 2 then y - 1 else y
  let era : Int := (if 0 ≤ y then y else y - 399).ediv 400
  let yoe : Int := y - era * 400
  let doy : Int := ((153 * ((m : Int) + (if 2 < m then -3 else 9)) + 2).ediv 5) + d - 1
  let doe : Int := yoe * 365 + yoe.ediv 4 - yoe.ediv 100 + doy
  era * 146097 + doe - 719468

/-- Model of the ECMAScript `new Date(y, m0, d, h, mi, s)` constructor
value (milliseconds; fixed-offset host timezone).  Out-of-range
components normalise exactly as `MakeDay`/`MakeTime` do: months carry
into years, and day/hour/minute/second offsets are plain additions.
Years `0–99` map to `1900–1999`. -/
def mkDateMs (y : Int) (m0 : Int) (d h mi s : Int) : Int :=
  let y := if 0 ≤ y && y ≤ 99 then y + 1900 else y
  let monthsTotal : Int := y * 12 + m0
  let ny : Int := monthsTotal.ediv 12
  let nm : Nat := (monthsTotal.emod 12).toNat
  let days : Int := daysFromCivil ny (nm + 1) 1 + (d - 1)
  days * 86400000 + h * 3600000 + mi * 60000 + s * 1000

/-- `parseFilterDate` from `LogcatViewV2.tsx`: match `FILTER_PATTERN` and
build `new Date(year, month-1, day, hour, minute, second)`. -/
def parseFilterDate (value : Option Str) : Option Int := do
  let v ← value
  let (year, month, day, hour, minute, second) ← matchFilterPattern v
  some (mkDateMs year ((month : Int) - 1) day hour minute second)

/-- The `setFilters` body of `applyTimeRange` after `nextFrom`/`nextTo`
are fixed: swap the bounds when both parse and `fromDate > toDate`
(`LogcatViewV2.tsx`, lines 131–142). -/
def orderRange (nextFrom nextTo : Option Str) (f : LogFilters) : LogFilters :=
  match parseFilterDate nextFrom, parseFilterDate nextTo with
  | some fd, some td =>
    if td < fd then { f with tsFrom := nextTo, tsTo := nextFrom }
    else { f with tsFrom := nextFrom, tsTo := nextTo }
  | _, _ => { f with tsFrom := nextFrom, tsTo := nextTo }

/-- `applyTimeRange` from `LogcatViewV2.tsx` (lines 124–144) as a pure
update of the filter record. -/
def applyTimeRange (fromInput toInput : Str) (timeRangeYear : Nat)
    (f : LogFilters) : LogFilters :=
  let parsedFrom := parseThreadtimeInput (some fromInput) timeRangeYear
  let parsedTo := parseThreadtimeInput (some toInput) timeRangeYear
  let nextFrom := parsedFrom <|> (if trimStr fromInput ≠ [] then f.tsFrom else none)
  let nextTo := parsedTo <|> (if trimStr toInput ≠ [] then f.tsTo else none)
  orderRange nextFrom nextTo f

example : (textChipsSync ["a".toList, ".".toList] {}).text =
    some "a|\\.".toList := by decide

example : (tagChipsSync ["A".toList, "C".toList] {}).tag =
    some "A|C".toList := by decide

example : parseThreadtimeInput (some "01-15 10:30:00.123".toList) 2024 =
    some "2024-01-15 10:30:00".toList := by decide

example : parseFilterDate (some "2024-01-15 10:30:00".toList) =
    some 1705314600000 := by decide

example : (applyTimeRange "01-15 11:00:00".toList "01-15 10:00:00".toList 2024 {}).tsFrom =
    some "2024-01-15 10:00:00".toList := by decide

/-! ## useLogcatQuery.ts: query state and buffer management -/

/-- `CursorDirection` from `types.ts`. -/
inductive CursorDirection where
  | forward
  | backward
deriving DecidableEq, Repr

/-- `QueryCursor` from `types.ts`. -/
structure QueryCursor where
  position : Nat
  direction : CursorDirection
  filterHash : Nat
deriving DecidableEq, Repr

/-- `LevelCounts` from `types.ts`. -/
structure LevelCounts where
  verbose : Nat := 0
  debug : Nat := 0
  info : Nat := 0
  warning : Nat := 0
  error : Nat := 0
  fatal : Nat := 0
deriving DecidableEq, Repr

/-- `LogcatStats` from `types.ts`. -/
structure LogcatStats where
  totalRows : Nat
  filteredRows : Option Nat := none
  minTimestampMs : Option Int := none
  maxTimestampMs : Option Int := none
  minTsDisplay : Option Str := none
  maxTsDisplay : Option Str := none
  levelCounts : LevelCounts := {}
deriving DecidableEq, Repr

/-- `QueryResponse` from `types.ts`, polymorphic in the row type (the
query-state reducers never inspect row contents). -/
structure QueryResponse (α : Type) where
  rows : List α
  nextCursor : Option QueryCursor := none
  prevCursor : Option QueryCursor := none
  hasMoreNext : Bool := false
  hasMorePrev : Bool := false
  estimatedTotal : Option Nat := none
  positionRatio : ℚ := 0
deriving DecidableEq, Repr

/-- `QueryState` from `useLogcatQuery.ts`. -/
structure QueryState (α : Type) where
  rows : List α := []
  nextCursor : Option QueryCursor := none
  prevCursor : Option QueryCursor := none
  hasMoreNext : Bool := false
  hasMorePrev : Bool := false
  loading : Bool := false
  loadingNext : Bool := false
  loadingPrev : Bool := false
  error : Option Str := none
  stats : Option LogcatStats := none
  firstItemIndex : Int := 0
deriving DecidableEq, Repr

/-- `BATCH_SIZE` in `useLogcatQuery.ts`. -/
def BATCH_SIZE : Nat := 500

/-- `getMaxBufferSize` from `useLogcatQuery.ts` (lines 11–15); `none`
models the JavaScript `Infinity`, `Math.ceil(totalRows * 0.5)` is
`(totalRows + 1) / 2` on integers. -/
def getMaxBufferSize (totalRows : Nat) : Option Nat :=
  if totalRows < 20000 then none
  else if totalRows < 100000 then some ((totalRows + 1) / 2)
  else some 50000

/-- `newRows.length > maxBuffer` with `maxBuffer` possibly `Infinity`. -/
def exceedsBuffer (len : Nat) : Option Nat → Bool
  | none => false
  | some m => m < len

/-- The first `setState` of `loadInitial` (line 50). -/
def loadInitialStart {α : Type} (s : QueryState α) : QueryState α :=
  { s with loading := true, error := none, rows := [], firstItemIndex := 0 }

/-- The success `setState` of `loadInitial` (lines 66–76). -/
def loadInitialUpdate {α : Type} (s : QueryState α) (stats : LogcatStats)
    (response : QueryResponse α) : QueryState α :=
  { s with
    rows := response.rows,
    nextCursor := response.nextCursor,
    prevCursor := response.prevCursor,
    hasMoreNext := response.hasMoreNext,
    hasMorePrev := response.hasMorePrev,
    loading := false,
    stats := some stats,
    firstItemIndex := 0 }

/-- The success `setState` reducer of `loadNext` (lines 100–123). -/
def loadNextUpdate {α : Type} (s : QueryState α) (response : QueryResponse α) :
    QueryState α :=
  let newRows0 := s.rows ++ response.rows
  let maxBuffer := getMaxBufferSize ((s.stats.map LogcatStats.totalRows).getD newRows0.length)
  let didTrim := exceedsBuffer newRows0.length maxBuffer
  let excess := newRows0.length - maxBuffer.getD 0
  let newRows := if didTrim then newRows0.drop excess else newRows0
  { s with
    rows := newRows,
    nextCursor := response.nextCursor,
    hasMoreNext := response.hasMoreNext,
    hasMorePrev := if didTrim then true else s.hasMorePrev,
    loadingNext := false,
    firstItemIndex := s.firstItemIndex + (if didTrim then (excess : Int) else 0) }

/-- The success `setState` reducer of `loadPrev` (lines 150–173): the
batch is reversed (`[...response.rows].reverse()`) before being
prepended, and trimming keeps the first `maxBuffer` rows. -/
def loadPrevUpdate {α : Type} (s : QueryState α) (response : QueryResponse α) :
    QueryState α :=
  let newRowsToAdd := response.rows.reverse
  let newRows0 := newRowsToAdd ++ s.rows
  let newFirstItemIndex := s.firstItemIndex - (newRowsToAdd.length : Int)
  let maxBuffer := getMaxBufferSize ((s.stats.map LogcatStats.totalRows).getD newRows0.length)
  let didTrim := exceedsBuffer newRows0.length maxBuffer
  let newRows := if didTrim then newRows0.take (maxBuffer.getD 0) else newRows0
  { s with
    rows := newRows,
    prevCursor := response.prevCursor,
    hasMorePrev := response.hasMorePrev,
    hasMoreNext := if didTrim then true else s.hasMoreNext,
    loadingPrev := false,
    firstItemIndex := max 0 newFirstItemIndex }

/-- The buffer invariant of the query state: `firstItemIndex ≥ 0` and,
when stats are loaded, the buffer never exceeds
`getMaxBufferSize(stats.totalRows)`. -/
def bufferInvariant {α : Type} (s : QueryState α) : Prop :=
  0 ≤ s.firstItemIndex ∧
    ∀ st, s.stats = some st →
      ∀ m, getMaxBufferSize st.totalRows = some m → s.rows.length ≤ m

/-! ## App.tsx: parse progress listener -/

/-- `ParseProgress` payload as used by `App.tsx` and `AppShell`. -/
structure ParseProgress where
  percent : ℚ
  phase : Str
  bytesRead : Nat
  totalBytes : Nat
  rowsProcessed : Nat
  details : Option Str := none
deriving DecidableEq, Repr

/-- The `"parse://progress"` listener body in `App.tsx` (lines 76–82):
spread the payload and clamp `percent` to `[0, 100]`. -/
def onParseProgress (payload : ParseProgress) : ParseProgress :=
  { payload with percent := min 100 (max 0 payload.percent) }

example :
    (loadPrevUpdate { rows := [5], firstItemIndex := 2 }
      { rows := [3, 2] : QueryResponse Nat }).rows = [2, 3, 5] := by decide

example : (onParseProgress
    { percent := 250, phase := [], bytesRead := 0, totalBytes := 0,
      rowsProcessed := 0 }).percent = 100 := by decide

/-! ## Spec-modelled line parser (backend `parser.rs` is not in the
frontend sources; modelled from spec §4.2) -/

/-- Consume one or more digits (`\d+`), greedily. -/
def pDigits1 (s : Str) : Option (Str × Str) :=
  let ds := s.takeWhile isDigitChar
  if ds = [] then none else some (ds, s.dropWhile isDigitChar)

/-- A parsed threadtime row, before indexing. -/
structure MRow where
  dateRaw : Str
  timeRaw : Str
  pid : Nat
  tid : Nat
  level : Char
  tag : Str
  msg : Str
deriving DecidableEq, Repr

/-- Modelled from the spec: the threadtime line pattern of §4.2
(`^(\d\x7b2\x7d-\d\x7b2\x7d)\s+(\d\x7b2\x7d:\d\x7b2\x7d:\d\x7b2\x7d\.\d\x7b3\x7d)\s+(\d+)\s+(\d+)\s+([VDIWEF])\s+([^:]+):\s(.*)$`);
the Rust `parser.rs` holding it is not under the frontend sources.
The tag is trimmed per §3/§4.2. -/
def pLineTime (s : Str) : Option (Str × Str) := do
  let (h, mi, sec, s) ← pHms s
  let s ← pChar '.' s
  let (ms, s) ← pDigits 3 s
  some (h ++ ':' :: mi ++ ':' :: sec ++ '.' :: ms, s)

def pLineHeader (s : Str) : Option (Str × Str × Nat × Nat × Str) := do
  let (month, day, s) ← pMonthDay s
  let s ← pSpaces1 s
  let (time, s) ← pLineTime s
  let s ← pSpaces1 s
  let (pidD, s) ← pDigits1 s
  let s ← pSpaces1 s
  let (tidD, s) ← pDigits1 s
  let s ← pSpaces1 s
  some (month ++ '-' :: day, time, digitsToNat pidD, digitsToNat tidD, s)

/-- The `([^:]+):\s(.*)$` tail: a non-empty non-colon tag, the colon, one
whitespace character, and the message. -/
def pTagMsg (s : Str) : Option (Str × Str) :=
  let tagRaw := s.takeWhile (fun c => c ≠ ':')
  if tagRaw = [] then none
  else
    match s.dropWhile (fun c => c ≠ ':') with
    | ':' :: w :: msg => if isSpaceChar w then some (trimStr tagRaw, msg) else none
    | _ => none

def matchThreadtimeLine (s : Str) : Option MRow := do
  let (date, time, pid, tid, s) ← pLineHeader s
  match s with
  | [] => none
  | lvl :: s =>
    if ['V', 'D', 'I', 'W', 'E', 'F'].contains lvl then do
      let s ← pSpaces1 s
      let (tag, msg) ← pTagMsg s
      some { dateRaw := date, timeRaw := time, pid := pid, tid := tid,
             level := lvl, tag := tag, msg := msg }
    else none

/-- Soft cap of 64 KiB per message (spec §4.2). -/
def MSG_CAP : Nat := 65536

def capMsg (m : Str) : Str := m.take MSG_CAP

/-- Modelled from the spec: one step of the line parser (§4.2), on rows
accumulated newest-first.  A matching line starts a new row; a blank line
is ignored; any other line is appended to the previous row's `msg` with a
single `'\n'` separator (orphan continuations are dropped). -/
def parseLineStep (acc : List MRow) (line : Str) : List MRow :=
  match matchThreadtimeLine line with
  | some r => r :: acc
  | none =>
    if line = [] then acc
    else
      match acc with
      | [] => []
      | last :: rest => { last with msg := capMsg (last.msg ++ '\n' :: line) } :: rest

/-- Modelled from the spec: the full line-parser pass (§4.2). -/
def parseLines (lines : List Str) : List MRow :=
  (lines.foldl parseLineStep []).reverse

/-- Per-level counts of the parsed rows (spec §4.3, `summary`). -/
def levelCountsOf (rows : List MRow) : LevelCounts :=
  { verbose := (rows.filter (fun r => r.level = 'V')).length,
    debug := (rows.filter (fun r => r.level = 'D')).length,
    info := (rows.filter (fun r => r.level = 'I')).length,
    warning := (rows.filter (fun r => r.level = 'W')).length,
    error := (rows.filter (fun r => r.level = 'E')).length,
    fatal := (rows.filter (fun r => r.level = 'F')).length }

/-- The three lines of scenario S1 (spec §8). -/
def s1Lines : List Str :=
  ["01-15 10:00:00.000  1 2 I MyTag: hello".toList,
   "01-15 10:00:00.001  1 2 E MyTag: boom".toList,
   "    at Foo.bar(Foo.java:1)".toList]

example : (parseLines s1Lines).length = 2 := by decide

/-! ## Spec-modelled query executor (backend `parser.rs`/`lib.rs` is not
in the frontend sources; modelled from spec §4.4/§6) -/

/-- Spec §3 `LogRow` as stored in the `rows` cache artifact. -/
structure SLogRow where
  byteOffset : Nat
  tsRaw : Str
  tsEpochMs : Option Int := none
  level : Char
  tag : Str
  pid : Nat
  tid : Nat
  msg : Str
deriving DecidableEq, Repr

/-- Query errors of spec §7. -/
inductive QueryError where
  | cursorInvalid (msg : String)
  | filterInvalid (msg : String)
  | cacheStale
deriving DecidableEq, Repr

/-- Modelled from the spec: a stable digest of the normalised filter set
(§4.4 "filter fingerprint"; the Rust digest is not under the frontend
sources). -/
def strDigest (s : Str) : Nat :=
  s.foldl (fun h c => (h * 131 + c.toNat + 1) % 2 ^ 64) 7

def optStrDigest : Option Str → Nat
  | none => 0
  | some s => strDigest s + 1

def optNatDigest : Option Nat → Nat
  | none => 0
  | some n => n + 1

def filterFingerprint (f : LogFilters) : Nat :=
  [optStrDigest f.tsFrom, optStrDigest f.tsTo,
   optStrDigest f.levels, optStrDigest f.tag,
   optNatDigest f.pid, optNatDigest f.tid,
   optStrDigest f.text, optStrDigest f.notText,
   (match f.textMode with | none => 0 | some TextMode.plain => 1 | some TextMode.regex => 2),
   (match f.caseSensitive with | none => 0 | some false => 1 | some true => 2)
  ].foldl (fun h x => (h * 1099511628211 + x) % 2 ^ 64) 14695981039346656037

/-- JavaScript-style `split('|')`. -/
def splitBar : Str → List Str
  | [] => [[]]
  | c :: cs =>
    let r := splitBar cs
    if c = '|' then [] :: r
    else
      match r with
      | h :: t => (c :: h) :: t
      | [] => [[c]]

def normCase (caseSensitive : Bool) (s : Str) : Str :=
  if caseSensitive then s else lowerStr s

/-- Plain-mode text predicate (spec §4.4 "Text matching"): a `|` in the
query is a disjunction of literal alternatives. -/
def plainTextMatch (query : Str) (caseSensitive : Bool) (msg : Str) : Bool :=
  (splitBar query).any (fun alt => containsSub (normCase caseSensitive msg) (normCase caseSensitive alt))

/-- Modelled from the spec: the full row predicate of §4.4 step 5 (level
set, tag alternation, pid/tid equality, time bounds, text include and
exclude); the regex engine is abstracted as `compile`. -/
def rowMatches (f : LogFilters) (compile : Str → Bool → Option (Str → Bool))
    (r : SLogRow) : Bool :=
  (match f.levels with | none => true | some ls => ls.contains r.level) &&
  (match f.tag with | none => true | some t => (splitBar t).any (fun alt => alt == r.tag)) &&
  (match f.pid with | none => true | some p => p == r.pid) &&
  (match f.tid with | none => true | some t => t == r.tid) &&
  (match parseFilterDate f.tsFrom with
   | none => true
   | some a => match r.tsEpochMs with | none => false | some ts => a ≤ ts) &&
  (match parseFilterDate f.tsTo with
   | none => true
   | some b => match r.tsEpochMs with | none => false | some ts => ts ≤ b) &&
  (match f.text with
   | none => true
   | some t =>
     let cs := f.caseSensitive.getD false
     match f.textMode.getD TextMode.plain with
     | TextMode.plain => plainTextMatch t cs r.msg
     | TextMode.regex =>
       match compile t cs with
       | some m => m r.msg
       | none => plainTextMatch t cs r.msg) &&
  (match f.notText with
   | none => true
   | some nt => !(containsSub (lowerStr r.msg) (lowerStr nt)))

/-- Spec §5: a filter set whose `tsFrom` parses later than its `tsTo` is
infeasible. -/
def filtersInfeasible (f : LogFilters) : Bool :=
  match parseFilterDate f.tsFrom, parseFilterDate f.tsTo with
  | some a, some b => b < a
  | _, _ => false

/-- Modelled from the spec: the body of `query_logcat_v2` after cursor
validation (§4.4).  Forward pages are collected in ascending ordinal
order; backward pages are collected walking backwards and are returned
newest-first (the frontend `loadPrev` comment records that "backward
query returns in reverse order" and reverses the batch itself). -/
def runQuery (store : List SLogRow) (compile : Str → Bool → Option (Str → Bool))
    (f : LogFilters) (p : Nat) (limit : Nat) (dir : CursorDirection) :
    QueryResponse SLogRow :=
  let fp := filterFingerprint f
  let indexed := store.enum
  match dir with
  | CursorDirection.forward =>
    let cand := (indexed.drop p).filter (fun x => rowMatches f compile x.2)
    let batch := cand.take limit
    let nextPos := match batch.getLast? with
      | some (i, _) => i + 1
      | none => p
    { rows := batch.map Prod.snd,
      nextCursor := some ⟨nextPos, CursorDirection.forward, fp⟩,
      prevCursor := some ⟨p, CursorDirection.backward, fp⟩,
      hasMoreNext := limit < cand.length,
      hasMorePrev := 0 < p,
      estimatedTotal := some cand.length,
      positionRatio := (p : ℚ) / (max 1 store.length : ℚ) }
  | CursorDirection.backward =>
    let cand := ((indexed.take p).filter (fun x => rowMatches f compile x.2)).reverse
    let batch := cand.take limit
    let prevPos := match batch.getLast? with
      | some (i, _) => i
      | none => p
    { rows := batch.map Prod.snd,
      nextCursor := some ⟨p, CursorDirection.forward, fp⟩,
      prevCursor := some ⟨prevPos, CursorDirection.backward, fp⟩,
      hasMoreNext := p < store.length,
      hasMorePrev := limit < cand.length,
      estimatedTotal := some cand.length,
      positionRatio := (p : ℚ) / (max 1 store.length : ℚ) }

/-- Modelled from the spec: the `query_logcat_v2` command (§4.4, §6).
A cursor whose `filterHash` differs from the request's fingerprint is
rejected the instant it is presented (§4.4 cursor state machine); the
`position` is re-validated against the row store's bounds; infeasible
filters are rejected before touching the store. -/
def queryLogcatV2 (store : List SLogRow)
    (compile : Str → Bool → Option (Str → Bool)) (f : LogFilters)
    (cursor : Option QueryCursor) (limit : Nat) (dir : CursorDirection) :
    Except QueryError (QueryResponse SLogRow) :=
  match cursor with
  | some c =>
    if c.filterHash ≠ filterFingerprint f then
      Except.error (QueryError.cursorInvalid "Filter changed")
    else if store.length < c.position then
      Except.error (QueryError.cursorInvalid "cursor invalid: position out of range")
    else if filtersInfeasible f then
      Except.error (QueryError.filterInvalid "tsFrom > tsTo")
    else
      Except.ok (runQuery store compile f c.position limit dir)
  | none =>
    if filtersInfeasible f then
      Except.error (QueryError.filterInvalid "tsFrom > tsTo")
    else
      match dir with
      | CursorDirection.forward => Except.ok (runQuery store compile f 0 limit dir)
      | CursorDirection.backward =>
        Except.ok (runQuery store compile f store.length limit dir)

/-! # Claim theorems -/

/-- Helper: whatever `nextFrom`/`nextTo` are, the record produced by
`orderRange` has its parsed bounds in order. -/
theorem orderRange_ordered (nf nt : Option Str) (f : LogFilters) (d1 d2 : Int)
    (h1 : parseFilterDate (orderRange nf nt f).tsFrom = some d1)
    (h2 : parseFilterDate (orderRange nf nt f).tsTo = some d2) : d1 ≤ d2 := by
  unfold orderRange at h1 h2
  rcases hF : parseFilterDate nf with _ | fd <;>
    rcases hT : parseFilterDate nt with _ | td <;>
    rw [hF, hT] at h1 h2 <;>
    simp only at h1 h2
  · rw [hF] at h1; cases h1
  · rw [hF] at h1; cases h1
  · rw [hT] at h2; cases h2
  · by_cases hlt : td < fd
    · rw [if_pos hlt] at h1 h2
      simp only at h1 h2
      rw [hT] at h1; rw [hF] at h2
      cases h1; cases h2; omega
    · rw [if_neg hlt] at h1 h2
      simp only at h1 h2
      rw [hF] at h1; rw [hT] at h2
      cases h1; cases h2; omega

/-- C6: a filter set with `tsFrom` later than `tsTo` is rejected as
infeasible (`FilterInvalid`) before any disk access (spec-modelled
executor), and the UI layer never produces such a filter set: whenever
both bounds produced by `applyTimeRange` parse as dates, the updated
filters satisfy `parsed(tsFrom) ≤ parsed(tsTo)`. -/
theorem C6_infeasible_range_rejected_and_never_produced :
    (∀ store compile f limit dir, filtersInfeasible f = true →
      queryLogcatV2 store compile f none limit dir =
        Except.error (QueryError.filterInvalid "tsFrom > tsTo")) ∧
    (∀ fromInput toInput year f d1 d2,
      parseFilterDate (applyTimeRange fromInput toInput year f).tsFrom = some d1 →
      parseFilterDate (applyTimeRange fromInput toInput year f).tsTo = some d2 →
      d1 ≤ d2) := by
  constructor
  · intro store compile f limit dir h
    simp [queryLogcatV2, h]
  · intro fromInput toInput year f d1 d2 h1 h2
    simp only [applyTimeRange] at h1 h2
    exact orderRange_ordered _ _ f d1 d2 h1 h2

/-- C6 witness: concrete inverted inputs are swapped into order, and the
spec-modelled executor rejects a concrete infeasible filter set. -/
theorem C6_witness :
    filtersInfeasible
      { tsFrom := some "2024-01-15 11:00:00".toList,
        tsTo := some "2024-01-15 10:00:00".toList } = true ∧
    queryLogcatV2 [] (fun _ _ => none)
      { tsFrom := some "2024-01-15 11:00:00".toList,
        tsTo := some "2024-01-15 10:00:00".toList } none 500
        CursorDirection.forward =
      Except.error (QueryError.filterInvalid "tsFrom > tsTo") ∧
    parseFilterDate (applyTimeRange "01-15 11:00:00".toList "01-15 10:00:00".toList
        2024 {}).tsFrom = some 1705312800000 ∧
    parseFilterDate (applyTimeRange "01-15 11:00:00".toList "01-15 10:00:00".toList
        2024 {}).tsTo = some 1705316400000 ∧
    (1705312800000 : Int) ≤ 1705316400000 := by
  refine ⟨by decide, C6_infeasible_range_rejected_and_never_produced.1 _ _ _ _ _ (by decide),
    by decide, by decide,
    C6_infeasible_range_rejected_and_never_produced.2 "01-15 11:00:00".toList
      "01-15 10:00:00".toList 2024 {} _ _ (by decide) (by decide)⟩

/-- C2: every `query_logcat_v2` call presenting a cursor whose
`filterHash` differs from the fingerprint of the request's filters fails
with `CursorInvalid("Filter changed")` and returns no rows
(spec-modelled executor). -/
theorem C2_stale_cursor_rejected (store : List SLogRow)
    (compile : Str → Bool → Option (Str → Bool)) (f : LogFilters)
    (c : QueryCursor) (limit : Nat) (dir : CursorDirection)
    (h : c.filterHash ≠ filterFingerprint f) :
    queryLogcatV2 store compile f (some c) limit dir =
      Except.error (QueryError.cursorInvalid "Filter changed") := by
  simp [queryLogcatV2, h]

/-- C2 witness: a concrete cursor minted for `tag:"X"` presented with
`tag:"Y"` is rejected. -/
theorem C2_witness :
    (filterFingerprint { tag := some ['X'] } ≠
      filterFingerprint { tag := some ['Y'] }) ∧
    queryLogcatV2 [] (fun _ _ => none) { tag := some ['Y'] }
        (some ⟨0, CursorDirection.forward, filterFingerprint { tag := some ['X'] }⟩)
        500 CursorDirection.forward =
      Except.error (QueryError.cursorInvalid "Filter changed") :=
  ⟨by decide, C2_stale_cursor_rejected _ _ _ _ _ _ (by decide)⟩

/-- C5: a non-empty list of tag chips synthesises `filters.tag` as the
chips joined by `'|'`; an empty chip list clears the tag filter. -/
theorem C5_tag_chips_join (tagChips : List Str) (f : LogFilters) :
    (tagChips ≠ [] →
      (tagChipsSync tagChips f).tag = some (List.intercalate ['|'] tagChips)) ∧
    (tagChips = [] → (tagChipsSync tagChips f).tag = none) := by
  cases tagChips <;> simp [tagChipsSync]

/-- C5 witness: chips `A`, `C` synthesise `tag = "A|C"`. -/
theorem C5_witness :
    (tagChipsSync [['A'], ['C']] {}).tag = some "A|C".toList ∧
    (tagChipsSync ([] : List Str) {}).tag = none := by
  refine ⟨((C5_tag_chips_join [['A'], ['C']] {}).1 (by decide)).trans (by decide),
    (C5_tag_chips_join [] {}).2 rfl⟩

/-- C4 counterexample: with two plain-mode chips `a` and `.`, the
synthesised text is the regex-escaped `"a|\."`, not the literal join
`"a|."`, and `textMode` is switched to `regex` rather than staying
plain. -/
theorem C4_counterexample :
    (textChipsSync [['a'], ['.']] { textMode := some TextMode.plain }).text ≠
      some "a|.".toList ∧
    (textChipsSync [['a'], ['.']] { textMode := some TextMode.plain }).textMode ≠
      some TextMode.plain := by
  decide

/-- C4 (amended): for two or more text chips entered while `textMode` is
not `regex`, the synthesised `filters.text` equals the regex-escaped
chips joined by `'|'`, and `textMode` is switched to `regex`, making the
query a regex-mode disjunction of the escaped alternatives. -/
theorem C4_multi_chip_or (textChips : List Str) (f : LogFilters)
    (h2 : 2 ≤ textChips.length) (hm : f.textMode ≠ some TextMode.regex) :
    (textChipsSync textChips f).text =
      some (List.intercalate ['|'] (textChips.map escapeRegex)) ∧
    (textChipsSync textChips f).textMode = some TextMode.regex := by
  match textChips, h2 with
  | c1 :: c2 :: rest, _ =>
    simp [textChipsSync, hm]

/-- C4 witness: chips `a`, `b` in plain mode give `text = "a|b"` and
regex mode. -/
theorem C4_witness :
    (textChipsSync [['a'], ['b']] { textMode := some TextMode.plain }).text =
      some "a|b".toList ∧
    (textChipsSync [['a'], ['b']] { textMode := some TextMode.plain }).textMode =
      some TextMode.regex :=
  ⟨((C4_multi_chip_or [['a'], ['b']] _ (by decide) (by decide)).1).trans (by decide),
    (C4_multi_chip_or [['a'], ['b']] _ (by decide) (by decide)).2⟩

/-- C10: the stored progress for every `parse://progress` payload has
`percent = min(100, max(0, payload.percent))`, hence within `[0, 100]`,
and every other field unchanged. -/
theorem C10_progress_percent_clamped (payload : ParseProgress) :
    (onParseProgress payload).percent = min 100 (max 0 payload.percent) ∧
    0 ≤ (onParseProgress payload).percent ∧
    (onParseProgress payload).percent ≤ 100 ∧
    (onParseProgress payload).phase = payload.phase ∧
    (onParseProgress payload).bytesRead = payload.bytesRead ∧
    (onParseProgress payload).totalBytes = payload.totalBytes ∧
    (onParseProgress payload).rowsProcessed = payload.rowsProcessed ∧
    (onParseProgress payload).details = payload.details :=
  ⟨rfl, le_min (by norm_num) (le_max_left 0 _), min_le_left _ _,
    rfl, rfl, rfl, rfl, rfl⟩

/-- C1 counterexample: `loadPrev` does *not* prepend the backward batch
as returned — it reverses it first (the batch arrives newest-first).
With buffer `[5]` and backward batch `[3, 2]`, the new buffer is
`[2, 3, 5]`, not `[3, 2, 5]`. -/
theorem C1_counterexample :
    (loadPrevUpdate ({ rows := [5] } : QueryState Nat) { rows := [3, 2] }).rows ≠
      [3, 2] ++ [5] ∧
    (loadPrevUpdate ({ rows := [5] } : QueryState Nat) { rows := [3, 2] }).rows =
      [2, 3, 5] := by
  decide

/-- C1 (amended): a backward page arrives from the executor in
*descending* `byteOffset` order; `loadPrev` reverses the batch itself and
prepends the reversal (possibly trimmed to the buffer bound), so the
buffer stays in ascending order.  Rows are represented by their
`byteOffset` keys, which the reducer never inspects. -/
theorem C1_backward_page_reversed_by_caller (s : QueryState Nat)
    (resp : QueryResponse Nat)
    (hs : s.rows.Pairwise (· < ·))
    (hr : resp.rows.Pairwise (· > ·))
    (hcross : ∀ a ∈ resp.rows, ∀ b ∈ s.rows, a < b) :
    (loadPrevUpdate s resp).rows.Pairwise (· < ·) ∧
    (loadPrevUpdate s resp).rows <+: resp.rows.reverse ++ s.rows := by
  have hsorted : (resp.rows.reverse ++ s.rows).Pairwise (· < ·) := by
    rw [List.pairwise_append]
    refine ⟨?_, hs, ?_⟩
    · rw [List.pairwise_reverse]
      exact hr
    · intro a ha b hb
      exact hcross a (List.mem_reverse.mp ha) b hb
  simp only [loadPrevUpdate]
  constructor
  · split
    · exact hsorted.sublist (List.take_sublist _ _)
    · exact hsorted
  · split
    · exact List.take_prefix _ _
    · exact List.prefix_refl _

/-- C1 witness: buffer `[4, 5]`, backward batch `[3, 2]` (descending):
the updated buffer is ascending and is the reversed batch prepended. -/
theorem C1_witness :
    (loadPrevUpdate ({ rows := [4, 5] } : QueryState Nat) { rows := [3, 2] }).rows.Pairwise
        (· < ·) ∧
    (loadPrevUpdate ({ rows := [4, 5] } : QueryState Nat) { rows := [3, 2] }).rows <+:
      ([3, 2] : List Nat).reverse ++ [4, 5] :=
  C1_backward_page_reversed_by_caller { rows := [4, 5] } { rows := [3, 2] }
    (by decide) (by decide) (by decide)

/-- Helper: a finite buffer bound is at least 10 000. -/
theorem getMaxBufferSize_ge (t m : Nat) (h : getMaxBufferSize t = some m) :
    10000 ≤ m := by
  unfold getMaxBufferSize at h
  split at h
  · cases h
  · split at h
    · cases h
      omega
    · cases h
      omega

/-- C9: the buffer invariant (`firstItemIndex ≥ 0`, and `rows.length`
within `getMaxBufferSize(stats.totalRows)` whenever stats are loaded) is
preserved by every state update of `loadInitial` (both its reducers,
given the batch is at most `BATCH_SIZE` rows), `loadNext`, and
`loadPrev`. -/
theorem C9_buffer_invariant_preserved :
    (∀ (α : Type) (s : QueryState α), bufferInvariant (loadInitialStart s)) ∧
    (∀ (α : Type) (s : QueryState α) (st : LogcatStats) (resp : QueryResponse α),
      resp.rows.length ≤ BATCH_SIZE → bufferInvariant (loadInitialUpdate s st resp)) ∧
    (∀ (α : Type) (s : QueryState α) (resp : QueryResponse α),
      bufferInvariant s → bufferInvariant (loadNextUpdate s resp)) ∧
    (∀ (α : Type) (s : QueryState α) (resp : QueryResponse α),
      bufferInvariant s → bufferInvariant (loadPrevUpdate s resp)) := by
  refine ⟨?_, ?_, ?_, ?_⟩
  · intro α s
    exact ⟨le_refl 0, fun st hst m hm => by simp [loadInitialStart]⟩
  · intro α s st resp hlen
    refine ⟨le_refl 0, fun st' hst' m hm => ?_⟩
    simp only [loadInitialUpdate, Option.some.injEq] at hst'
    subst hst'
    have h10 := getMaxBufferSize_ge _ _ hm
    simp only [loadInitialUpdate]
    have : BATCH_SIZE ≤ 10000 := by norm_num [BATCH_SIZE]
    omega
  · intro α s resp hinv
    obtain ⟨hfi, hrows⟩ := hinv
    constructor
    · simp only [loadNextUpdate]
      split <;> [positivity; omega]
    · intro st hst m hm
      simp only [loadNextUpdate] at hst ⊢
      have hmb : (s.stats.map LogcatStats.totalRows).getD
          (s.rows ++ resp.rows).length = st.totalRows := by
        rw [hst]
        rfl
      rw [hmb, hm]
      simp only [exceedsBuffer, Option.getD_some]
      split
      · next hlt =>
        simp only [List.length_drop]
        omega
      · next hge =>
        simp only [decide_eq_true_eq] at hge
        omega
  · intro α s resp hinv
    obtain ⟨hfi, hrows⟩ := hinv
    constructor
    · simp only [loadPrevUpdate]
      exact le_max_left _ _
    · intro st hst m hm
      simp only [loadPrevUpdate] at hst ⊢
      have hmb : (s.stats.map LogcatStats.totalRows).getD
          (resp.rows.reverse ++ s.rows).length = st.totalRows := by
        rw [hst]
        rfl
      rw [hmb, hm]
      simp only [exceedsBuffer, Option.getD_some]
      split
      · next hlt =>
        simp only [List.length_take]
        omega
      · next hge =>
        simp only [decide_eq_true_eq] at hge
        omega

/-- C9 witness: concrete updates at `totalRows = 150000` (bound 50 000)
keep the invariant. -/
theorem C9_witness :
    bufferInvariant (loadInitialStart ({} : QueryState Nat)) ∧
    bufferInvariant (loadInitialUpdate ({} : QueryState Nat)
      { totalRows := 150000 } { rows := [1, 2, 3] }) ∧
    bufferInvariant (loadNextUpdate
      ({ stats := some { totalRows := 150000 } } : QueryState Nat) { rows := [7] }) ∧
    bufferInvariant (loadPrevUpdate
      ({ stats := some { totalRows := 150000 } } : QueryState Nat) { rows := [7] }) := by
  have hinv : bufferInvariant
      ({ stats := some { totalRows := 150000 } } : QueryState Nat) := by
    refine ⟨le_refl 0, fun st hst m hm => ?_⟩
    cases hst
    exact Nat.zero_le m
  exact ⟨C9_buffer_invariant_preserved.1 Nat {},
    C9_buffer_invariant_preserved.2.1 Nat {} _ _ (by decide),
    C9_buffer_invariant_preserved.2.2.1 Nat _ _ hinv,
    C9_buffer_invariant_preserved.2.2.2 Nat _ _ hinv⟩

/-- C7: a non-matching non-blank line is appended to the previous matched
row's `msg` with a single `'\n'` separator (under the 64 KiB soft cap),
and parsing the three-line flat log of scenario S1 yields exactly 2 rows,
the second row's `msg` equal to `"boom\n    at Foo.bar(Foo.java:1)"`, and
`levelCounts` `I:1, E:1` (spec-modelled parser). -/
theorem C7_continuation_lines_and_s1 :
    (∀ (r : MRow) (rest : List MRow) (line : Str),
      matchThreadtimeLine line = none → line ≠ [] →
      r.msg.length + 1 + line.length ≤ MSG_CAP →
      parseLineStep (r :: rest) line = { r with msg := r.msg ++ '\n' :: line } :: rest) ∧
    (parseLines s1Lines).length = 2 ∧
    (parseLines s1Lines).map MRow.msg =
      ["hello".toList, "boom\n    at Foo.bar(Foo.java:1)".toList] ∧
    levelCountsOf (parseLines s1Lines) = { info := 1, error := 1 } := by
  refine ⟨?_, by decide, by decide, by decide⟩
  intro r rest line hmatch hne hcap
  simp only [parseLineStep, hmatch, if_neg hne, capMsg]
  rw [List.take_of_length_le (by simp only [List.length_append, List.length_cons]; omega)]

/-- C7 witness: a concrete continuation line `"  x"` appended to a row
whose message is `"boom"`. -/
theorem C7_witness :
    parseLineStep
      [{ dateRaw := [], timeRaw := [], pid := 1, tid := 2, level := 'E',
         tag := ['T'], msg := "boom".toList }] "  x".toList =
    [{ dateRaw := [], timeRaw := [], pid := 1, tid := 2, level := 'E',
       tag := ['T'], msg := "boom\n  x".toList }] :=
  C7_continuation_lines_and_s1.1
    { dateRaw := [], timeRaw := [], pid := 1, tid := 2, level := 'E',
      tag := ['T'], msg := "boom".toList } [] "  x".toList
    (by decide) (by decide) (by decide)

/-- C3: when `textMode` is `regex` and the trimmed query either matches
the dangerous-pattern list or fails to compile, the highlighter returned
by `useLogHighlight` is extensionally equal to the plain-text highlighter
for the same query text and case-sensitivity flag (the hook at the same
filters with `textMode` set to `plain`). -/
theorem C3_bad_regex_degrades_to_plain (filters : LogFilters)
    (compile : Str → Bool → Option (Str → Highlight)) (text : Str)
    (hm : filters.textMode = some TextMode.regex)
    (hfail : isDangerousRegex (trimStr (filters.text.getD [])) = true ∨
      compile (trimStr (filters.text.getD []))
        (filters.caseSensitive.getD false) = none) :
    useLogHighlight filters compile text =
      useLogHighlight { filters with textMode := some TextMode.plain } compile text := by
  unfold useLogHighlight
  by_cases hlen : SAFE_HIGHLIGHT_LIMIT < text.length
  · rw [if_pos hlen, if_pos hlen]
  · rw [if_neg hlen, if_neg hlen]
    unfold highlightFn
    simp only [hm]
    by_cases hq : trimStr (filters.text.getD []) = []
    · rw [if_pos hq, if_pos hq]
    · rw [if_neg hq, if_neg hq]
      simp only [Option.getD_some, eq_self_iff_true, if_true]
      rw [if_neg (show ¬TextMode.plain = TextMode.regex by decide)]
      by_cases hd : isDangerousRegex (trimStr (filters.text.getD [])) = true
      · rw [if_pos hd]
      · rw [if_neg hd]
        rcases hfail with hdang | hnone
        · exact absurd hdang hd
        · rw [hnone]

/-- C3 witness: the dangerous pattern `(a+)+` and a failing compiler both
degrade to the plain highlighter on a concrete text. -/
theorem C3_witness :
    useLogHighlight
        { text := some "(a+)+".toList, textMode := some TextMode.regex }
        (fun _ _ => none) "xx(a+)+yy".toList =
      useLogHighlight
        { text := some "(a+)+".toList, textMode := some TextMode.plain }
        (fun _ _ => none) "xx(a+)+yy".toList :=
  C3_bad_regex_degrades_to_plain
    { text := some "(a+)+".toList, textMode := some TextMode.regex }
    (fun _ _ => none) "xx(a+)+yy".toList rfl (Or.inl (by decide))

/-- Helper: a successful `indexOf` starts at or after `start` and matches
there. -/
theorem indexOfFrom_some (s q : Str) (start i : Nat)
    (h : indexOfFrom s q start = some i) :
    start ≤ i ∧ matchesAt s q i = true := by
  unfold indexOfFrom at h
  have h2 := List.find?_some h
  simpa [Bool.and_eq_true, decide_eq_true_eq] using h2

/-- Helper: a slice glued to the rest of the string recovers the drop. -/
theorem sliceStr_drop (s : Str) (a b : Nat) (h : a ≤ b) :
    sliceStr s a b ++ s.drop b = s.drop a := by
  unfold sliceStr
  conv_rhs => rw [← List.take_append_drop (b - a) (s.drop a)]
  congr 1
  rw [List.drop_drop]
  congr 1
  omega

/-- Helper: slicing to the end of the string is dropping. -/
theorem sliceStr_to_end (s : Str) (a : Nat) : sliceStr s a s.length = s.drop a := by
  unfold sliceStr
  exact List.take_of_length_le (le_of_eq (List.length_drop a s))

/-- Helper: the invariant of the `createPlainHighlight` loop — the parts
outnumber the matches by one, the interleaved concatenation recovers the
unprocessed tail of the text, and every match is an infix of the text of
at most `qlen` characters.  The search positions come from `search`,
which may be longer than `text` when lowercasing expanded a character,
so a match sliced out of `text` can be shorter than `qlen`. -/
theorem plainLoopF_spec (text search sq : Str) (qlen fuel lastIndex : Nat) :
    ((plainLoopF text search sq qlen fuel lastIndex).1.length =
      (plainLoopF text search sq qlen fuel lastIndex).2.length + 1) ∧
    interleave (plainLoopF text search sq qlen fuel lastIndex).1
      (plainLoopF text search sq qlen fuel lastIndex).2 = text.drop lastIndex ∧
    ∀ m ∈ (plainLoopF text search sq qlen fuel lastIndex).2,
      m.length ≤ qlen ∧ m <:+: text := by
  induction fuel generalizing lastIndex with
  | zero =>
    refine ⟨rfl, ?_, by simp [plainLoopF]⟩
    simp [plainLoopF, interleave, sliceStr_to_end]
  | succ fuel ih =>
    cases hio : indexOfFrom search sq lastIndex with
    | none =>
      refine ⟨by simp [plainLoopF, hio], ?_, by simp [plainLoopF, hio]⟩
      simp [plainLoopF, hio, interleave, sliceStr_to_end]
    | some i =>
      obtain ⟨hge, hmat⟩ := indexOfFrom_some _ _ _ _ hio
      obtain ⟨ih1, ih2, ih3⟩ := ih (i + qlen)
      simp only [plainLoopF, hio]
      refine ⟨by simpa using ih1, ?_, ?_⟩
      · simp only [interleave, ih2]
        rw [List.append_assoc,
          sliceStr_drop text i (i + qlen) (by omega),
          sliceStr_drop text lastIndex i hge]
      · intro m hm
        rcases List.mem_cons.mp hm with hm1 | hm2
        · subst hm1
          constructor
          · simp only [sliceStr, List.length_take, List.length_drop]
            omega
          · exact ((List.take_prefix _ _).isInfix).trans
              ((List.drop_suffix _ _).isInfix)
        · exact ih3 m hm2

/-- C8 counterexample: at text `"İb"` with plain query `"b"` and the
default case-insensitive search, lowercasing expands `İ` to two units, so
`indexOf` finds `"b"` at position 2 of the lowered text while the
original text has length 2: the pushed match `text.slice(2, 3)` is the
empty string, whose length 0 differs from the query's length 1.  The
claim's "every match has the query's length" conjunct is false. -/
theorem C8_counterexample :
    (useLogHighlight { text := some ['b'] } (fun _ _ => none) ['İ', 'b']).hits =
      [[]] ∧
    ¬ ∀ m ∈ (useLogHighlight { text := some ['b'] } (fun _ _ => none)
        ['İ', 'b']).hits,
      m.length = (trimStr ((some ['b'] : Option Str).getD [])).length := by
  decide

/-- C8 (amended): for every message text and non-empty plain-mode search
query, the highlighter result is a structurally lossless decomposition:
`parts` outnumber `hits` by one, the interleaved concatenation recovers
the text exactly, and every match is an infix of the text of *at most*
the query's length (equality can fail when lowercasing changes the
string's length, as for `İ`, misaligning `indexOf` positions with the
original text). -/
theorem C8_plain_highlight_lossless (filters : LogFilters)
    (compile : Str → Bool → Option (Str → Highlight)) (text : Str)
    (hplain : filters.textMode.getD TextMode.plain = TextMode.plain)
    (hq : trimStr (filters.text.getD []) ≠ []) :
    (useLogHighlight filters compile text).parts.length =
      (useLogHighlight filters compile text).hits.length + 1 ∧
    interleave (useLogHighlight filters compile text).parts
      (useLogHighlight filters compile text).hits = text ∧
    ∀ m ∈ (useLogHighlight filters compile text).hits,
      m.length ≤ (trimStr (filters.text.getD [])).length ∧ m <:+: text := by
  unfold useLogHighlight
  by_cases hlen : SAFE_HIGHLIGHT_LIMIT < text.length
  · rw [if_pos hlen]
    exact ⟨rfl, by simp [interleave], by simp⟩
  · rw [if_neg hlen]
    unfold highlightFn
    rw [if_neg hq, hplain]
    rw [if_neg (show ¬TextMode.plain = TextMode.regex by decide)]
    unfold createPlainHighlight
    have hspec := plainLoopF_spec text
      (if filters.caseSensitive.getD false = true then text else lowerStr text)
      (if filters.caseSensitive.getD false = true then trimStr (filters.text.getD [])
        else lowerStr (trimStr (filters.text.getD [])))
      (trimStr (filters.text.getD [])).length
      (text.length + 1) 0
    simpa using hspec

/-- C8 witness: query `"o"`, text `"foo"`. -/
theorem C8_witness :
    (useLogHighlight { text := some "o".toList } (fun _ _ => none)
        "foo".toList).parts.length =
      (useLogHighlight { text := some "o".toList } (fun _ _ => none)
        "foo".toList).hits.length + 1 ∧
    interleave
      (useLogHighlight { text := some "o".toList } (fun _ _ => none)
        "foo".toList).parts
      (useLogHighlight { text := some "o".toList } (fun _ _ => none)
        "foo".toList).hits = "foo".toList ∧
    ∀ m ∈ (useLogHighlight { text := some "o".toList } (fun _ _ => none)
        "foo".toList).hits,
      m.length ≤ (trimStr ((some "o".toList : Option Str).getD [])).length ∧
        m <:+: "foo".toList :=
  C8_plain_highlight_lossless { text := some "o".toList } (fun _ _ => none)
    "foo".toList rfl (by decide)
